import Mathlib

/-!
Verification development for the person-directory service (`PeopleService` in
`src/people/people.service.ts`, backed by the in-memory list).

The service code is embedded shallowly:

* the private `_people` array is an explicit `List Person` threaded through
  the operations;
* the rxjs pipelines and their plain (`...WithoutArrowAndObs`) twins have the
  same observable behaviour, so each operation is embedded once as a pure
  function from the current list (plus the operation inputs) to a result and
  the new list;
* JavaScript `Date` parsing, `Math.round`, array indexing, `toLowerCase`,
  `split` and `Number.prototype.toString` are modelled explicitly below, with
  the modelling assumptions documented at each definition;
* thrown `NotFoundException` / `ConflictException` values and the `TypeError`
  raised by calling `toLowerCase` on `undefined` become an `Except`-style
  error result.

Files `people.types.ts`, the DTO classes and the seed data `src/data/people.ts`
are not part of the analysed sources; the definitions that depend on them say
so in their doc comments and follow the specification text.
-/

namespace NwtSchool

/-- Lowercases one character. This embeds the effect of JavaScript
`String.prototype.toLowerCase` restricted to ASCII characters: code points
65-90 (A-Z) are shifted by 32, everything else is untouched. The service only
lowercases names and ids, for which the ASCII fragment is the relevant one. -/
def charToLower (c : Char) : Char :=
  if 65 ≤ c.toNat ∧ c.toNat ≤ 90 then Char.ofNat (c.toNat + 32) else c

/-- Embeds `s.toLowerCase()` (ASCII fragment, see `charToLower`). -/
def sToLower (s : String) : String :=
  ⟨s.data.map charToLower⟩

/-- Helper for `jsSplitSlash`: walks the character list, cutting at each
slash. -/
def splitSlashAux : List Char → List Char → List String
  | [], acc => [String.mk acc.reverse]
  | c :: rest, acc =>
    if c = '/' then String.mk acc.reverse :: splitSlashAux rest []
    else splitSlashAux rest (c :: acc)

/-- Embeds `date.split('/')` from `_parseDate`. Like the JavaScript method it
returns `[""]` on the empty string and keeps empty segments between
consecutive separators. -/
def jsSplitSlash (s : String) : List String :=
  splitSlashAux s.data []

/-- Reads a string as an unsigned decimal number the way the JavaScript date
parser reads one segment of a slash-separated date: every character must be a
decimal digit and the segment must be non-empty, otherwise the segment is not
numeric and the whole date is invalid. -/
def parseNatJs (s : String) : Option Nat :=
  if s.data.isEmpty then none
  else if s.data.all Char.isDigit then
    some (s.data.foldl (fun a c => a * 10 + (c.toNat - 48)) 0)
  else none

/-- Gregorian leap-year rule, used by the `Date` model. -/
def isLeapYear (y : Nat) : Bool :=
  y % 4 == 0 && (y % 100 != 0 || y % 400 == 0)

/-- Month lengths of year `y`, January first. -/
def monthLengths (y : Nat) : List Nat :=
  [31, if isLeapYear y then 29 else 28, 31, 30, 31, 30, 31, 31, 30, 31, 30, 31]

/-- Number of days of month `m` (1-based) in year `y`; `0` for an impossible
month index, which can never pass the validity check. -/
def daysInMonth (y m : Nat) : Nat :=
  ((monthLengths y)[m - 1]?).getD 0

/-- Days of year `y` that lie before month `m` (1-based). -/
def daysBeforeMonth (y m : Nat) : Nat :=
  ((monthLengths y).take (m - 1)).sum

/-- Leap years in `1..n` (Gregorian, proleptic). -/
def leapCount (n : Nat) : Nat :=
  n / 4 - n / 100 + n / 400

/-- Days from 1 January 1970 to the civil date `y-m-d` (which may be
negative for dates before the epoch). -/
def daysFromEpoch (y m d : Nat) : Int :=
  365 * ((y : Int) - 1970) + ((leapCount (y - 1) : Int) - (leapCount 1969 : Int))
    + (daysBeforeMonth y m : Int) + (d : Int) - 1

/-- Epoch milliseconds of `y-m-d` at 00:00 UTC. -/
def civilMillis (y m d : Nat) : Int :=
  daysFromEpoch y m d * 86400000

/-- Two-digit year window used by the JavaScript date parser: `0..49` map
into the 2000s, `50..99` into the 1900s. -/
def windowYear (y : Nat) : Nat :=
  if y < 50 then y + 2000 else if y < 100 then y + 1900 else y

/-- Validity check and timestamp of the candidate calendar date `y-m-d`:
`none` models an `Invalid Date`. -/
def checkDate (y m d : Nat) : Option Int :=
  if 1 ≤ m ∧ m ≤ 12 ∧ 1 ≤ d ∧ d ≤ daysInMonth y m then some (civilMillis y m d)
  else none

/-- Embeds `new Date(text).getTime()` for the slash-separated texts that
`_parseDate` builds, following the V8 parser: the text must consist of three
numeric segments; a first segment of at least 32 cannot be a month or a day
and is read as a year (year/month/day order), otherwise the segments are read
as month/day/year. An invalid month or day gives an `Invalid Date`, whose
`getTime()` is `NaN`; both are modelled as `none`. The host time zone is
fixed to UTC, and the timestamp is the returned epoch milliseconds. -/
def jsDateParse (s : String) : Option Int :=
  match jsSplitSlash s with
  | [a, b, c] =>
    match parseNatJs a, parseNatJs b, parseNatJs c with
    | some x, some y, some z =>
      if 32 ≤ x then checkDate (windowYear x) y z else checkDate (windowYear z) x y
    | _, _, _ => none
  | _ => none

/-- Indexing into the segment list the way `dates[i]` behaves inside a
JavaScript template concatenation: a missing element is `undefined`, which
string concatenation renders as `"undefined"`. -/
def elemOr (l : List String) (i : Nat) : String :=
  (l[i]?).getD "undefined"

/-- Embeds `_parseDate` from `people.service.ts` (lines 268-271): split the
input on `/`, reassemble segments as `dates[2] + '/' + dates[1] + '/' +
dates[0]`, and hand the result to the `Date` constructor. The result is the
`getTime()` value, with `NaN` modelled as `none`; the function itself never
throws. -/
def parseDate (date : String) : Option Int :=
  let dates := jsSplitSlash date
  jsDateParse (elemOr dates 2 ++ "/" ++ elemOr dates 1 ++ "/" ++ elemOr dates 0)

/-- Embeds `Number.prototype.toString` applied to a `getTime()` result, as in
`this._parseDate('06/05/1985').toString()`: a finite value prints in decimal,
`NaN` prints as `"NaN"`. -/
def jsNumToString : Option Int → String
  | some n => toString n
  | none => "NaN"

/-- A value held in the `birthDate` field of a stored record. JavaScript is
untyped here, so the field can hold a finite number, the number `NaN`, or a
string. -/
inductive JsVal
  | num (n : Int)
  | nan
  | str (s : String)
deriving DecidableEq, Repr

/-- A stored person record. Modelled from the spec: the type file
`people.types.ts` is not among the analysed sources, so the fields come from
the specification data model (section 3) and from how the service accesses
them: `id`, `firstname`, `lastname`, `birthDate`, `photo`, plus the
additional descriptive attributes that are passed through opaquely, collapsed
here into the single field `extra`. -/
structure Person where
  id : String
  firstname : String
  lastname : String
  birthDate : JsVal
  photo : String
  extra : String
deriving DecidableEq, Repr

/-- Creation payload. Modelled from the spec: `create-person.dto.ts` is not
among the analysed sources. Names are required text; `birthDate` and `photo`
may or may not be supplied (the service overwrites both, see `addedPerson`);
the opaque pass-through attributes are `extra`. -/
structure CreatePersonDto where
  firstname : String
  lastname : String
  birthDate : Option String
  photo : Option String
  extra : String
deriving DecidableEq, Repr

/-- Update payload. Modelled from the spec: `update-person.dto.ts` is not
among the analysed sources; the specification describes the update input as
an arbitrary subset of person fields merged onto the existing record, so
every field is optional. `id` is assigned by the store and immutable, hence
not part of the payload. A missing field is `none`, which is what JavaScript
sees as `undefined`. -/
structure UpdatePersonDto where
  firstname : Option String
  lastname : Option String
  birthDate : Option String
  photo : Option String
  extra : Option String
deriving DecidableEq, Repr

/-- A seed entry of the `PEOPLE` constant. Modelled from the spec: the data
file `src/data/people.ts` is not among the analysed sources; per the
specification, seed entries carry the person fields with `birthDate` as
`dd/mm/yyyy` text that the constructor converts at load time. -/
structure RawPerson where
  id : String
  firstname : String
  lastname : String
  birthDate : String
  photo : String
  extra : String
deriving DecidableEq, Repr

/-- The failures an operation can raise: `NotFoundException`,
`ConflictException` (carrying the offending name pair), and the `TypeError`
produced by calling `toLowerCase()` on an `undefined` payload field. -/
inductive ServiceError
  | notFound (id : String)
  | conflict (lastname firstname : String)
  | typeError
deriving DecidableEq, Repr

deriving instance DecidableEq for Except

/-- Embeds the constructor of `PeopleService` (lines 21-26): each seed entry
is copied with its `birthDate` text replaced by the result of `_parseDate`
on it, a number (`NaN` when the text does not parse). -/
def initPeople (seed : List RawPerson) : List Person :=
  seed.map fun r =>
    { id := r.id, firstname := r.firstname, lastname := r.lastname,
      birthDate := match parseDate r.birthDate with
        | some n => JsVal.num n
        | none => JsVal.nan,
      photo := r.photo, extra := r.extra }

/-- Embeds `findAll` / `findAllWithoutArrowAndObs` (lines 33-42): the list
when it is non-empty, otherwise the `undefined` marker. -/
def findAll (s : List Person) : Option (List Person) :=
  if s.isEmpty then none else some s

/-- Embeds `Math.round`: round half away from zero toward positive infinity,
that is the floor of the argument plus one half. The random draw is modelled
as a rational number instead of a binary64 float; every binary64 value in
`[0, 1)` is such a rational. -/
def jsRound (x : ℚ) : Int := ⌊x + 1/2⌋

/-- Embeds JavaScript array subscripting `arr[i]` with a possibly
out-of-range or negative index: the result is `undefined` (`none`) outside
`0 ≤ i < arr.length`. -/
def jsIndex (l : List Person) (i : Int) : Option Person :=
  if 0 ≤ i then l[i.toNat]? else none

/-- Embeds `findRandom` / `findRandomWithoutArrowAndObs` (lines 49-58):
subscript the list at `Math.round(random * length)` where `random` is the
value drawn by `Math.random()` (a number in `[0, 1)`), and map an
`undefined` result to the `undefined` marker. -/
def findRandom (s : List Person) (random : ℚ) : Option Person :=
  jsIndex s (jsRound (random * s.length))

/-- Embeds `findOne` / `findOneWithoutArrowAndObs` (lines 67-86): first
record whose `id` is strictly equal to the argument, else
`NotFoundException`. -/
def findOne (s : List Person) (id : String) : Except ServiceError Person :=
  match s.find? (fun q => q.id == id) with
  | some q => Except.ok q
  | none => Except.error (ServiceError.notFound id)

/-- Embeds `_addPerson` (lines 233-244): the stored record spreads the
payload and then overwrites `id` with `_createId()` (the current epoch
milliseconds `t` rendered in decimal), `birthDate` with
`_parseDate('06/05/1985').toString()` and `photo` with the placeholder URL;
because the overwrites come after the spread, any `birthDate` or `photo`
supplied in the payload is discarded. -/
def addedPerson (p : CreatePersonDto) (t : Nat) : Person :=
  { id := Nat.repr t,
    firstname := p.firstname,
    lastname := p.lastname,
    birthDate := JsVal.str (jsNumToString (parseDate "06/05/1985")),
    photo := "https://randomuser.me/api/portraits/lego/6.jpg",
    extra := p.extra }

/-- Embeds `create` / `createWithoutArrowAndObs` (lines 95-129): scan the
current list for a record whose lowercased name pair equals the payload
name pair; on a hit raise `ConflictException`, otherwise append the record
built by `_addPerson`. `t` is the clock value `new Date().getTime()` read by
`_createId`. The returned pair is the operation result and the list after
the call. -/
def create (s : List Person) (p : CreatePersonDto) (t : Nat) :
    Except ServiceError Person × List Person :=
  match s.find? (fun q =>
      (sToLower q.lastname == sToLower p.lastname) &&
      (sToLower q.firstname == sToLower p.firstname)) with
  | some _ => (Except.error (ServiceError.conflict p.lastname p.firstname), s)
  | none => (Except.ok (addedPerson p t), s ++ [addedPerson p t])

/-- Embeds `Object.assign(existing, payload)` from `update`: every field
present on the payload overwrites the corresponding field of the record,
absent fields leave it untouched. A supplied `birthDate` is stored verbatim
as the raw string, since `update` performs no parsing. -/
def mergePerson (q : Person) (p : UpdatePersonDto) : Person :=
  { id := q.id,
    firstname := p.firstname.getD q.firstname,
    lastname := p.lastname.getD q.lastname,
    birthDate := match p.birthDate with
      | some text => JsVal.str text
      | none => q.birthDate,
    photo := p.photo.getD q.photo,
    extra := p.extra.getD q.extra }

/-- Embeds the composite `_findPeopleIndexOfList(id)` followed by
`Object.assign(this._people[index], person)` and the read-back of
`this._people[index]`: find the first record with the given `id` (strict
equality), replace it in place by the merged record, and return both the
merged record and the new list; `none` when no record has the `id`, in which
case `_findPeopleIndexOfList` raises `NotFoundException`. -/
def replaceById : List Person → String → UpdatePersonDto →
    Option (Person × List Person)
  | [], _, _ => none
  | q :: rest, id, p =>
    if q.id = id then some (mergePerson q p, mergePerson q p :: rest)
    else match replaceById rest id p with
      | some (m, rest') => some (m, q :: rest')
      | none => none

/-- Outcome of evaluating the conflict-scan predicate of `update` on one
record: the evaluation can die with a `TypeError`, declare the record a
conflicting match (carrying the payload names the exception message
interpolates, both necessarily present at that point), or declare it a
non-match. -/
inductive PredOutcome
  | crash
  | hit (lastname firstname : String)
  | miss
deriving DecidableEq, Repr

/-- Embeds one evaluation of the `update` conflict-scan predicate
(`people.service.ts` lines 141-146) on the record `existingPerson = q`,
with the JavaScript `&&` short-circuit: `person.lastname.toLowerCase()` is
evaluated first and dies with a `TypeError` when the payload omits
`lastname`; only when the lowercased lastnames agree is
`person.firstname.toLowerCase()` evaluated — so a missing `firstname` only
crashes on a record whose lastname already matched; only when both names
agree is the id comparison evaluated, and the record is a match exactly
when its lowercased `id` differs from the lowercased target `id`. -/
def conflictPred (p : UpdatePersonDto) (id : String) (q : Person) :
    PredOutcome :=
  match p.lastname with
  | none => PredOutcome.crash
  | some pl =>
    if sToLower q.lastname == sToLower pl then
      match p.firstname with
      | none => PredOutcome.crash
      | some pf =>
        if sToLower q.firstname == sToLower pf then
          if sToLower q.id == sToLower id then PredOutcome.miss
          else PredOutcome.hit pl pf
        else PredOutcome.miss
    else PredOutcome.miss

/-- Outcome of the whole conflict scan of `update` over the current list. -/
inductive ScanOutcome
  | crash
  | found (lastname firstname : String)
  | clean
deriving DecidableEq, Repr

/-- Embeds the rxjs `find` (respectively `Array.prototype.find`) running the
conflict-scan predicate over the list in order: the first `TypeError`
propagates, the first match stops the scan, and a scan that misses every
record — vacuously so on an empty list, where the predicate never runs —
completes cleanly. -/
def conflictScan (p : UpdatePersonDto) (id : String) :
    List Person → ScanOutcome
  | [] => ScanOutcome.clean
  | q :: rest =>
    match conflictPred p id q with
    | PredOutcome.crash => ScanOutcome.crash
    | PredOutcome.hit pl pf => ScanOutcome.found pl pf
    | PredOutcome.miss => conflictScan p id rest

/-- Embeds `update` / `updateWithoutArrowAndObs` (lines 138-180). The
conflict scan (see `conflictPred` and `conflictScan`) either dies with a
`TypeError`, raises `ConflictException` with the payload names, or
completes cleanly; after a clean scan `_findPeopleIndexOfList` locates the
record with the target `id` (raising `NotFoundException` when it is absent)
and `Object.assign` merges the payload onto it. -/
def update (s : List Person) (id : String) (p : UpdatePersonDto) :
    Except ServiceError Person × List Person :=
  match conflictScan p id s with
  | ScanOutcome.crash => (Except.error ServiceError.typeError, s)
  | ScanOutcome.found pl pf => (Except.error (ServiceError.conflict pl pf), s)
  | ScanOutcome.clean =>
    match replaceById s id p with
    | some (m, s') => (Except.ok m, s')
    | none => (Except.error (ServiceError.notFound id), s)

/-- Embeds `_findPeopleIndexOfList(id)` followed by `splice(index, 1)` from
`delete` (lines 189-193): remove the first record with the given `id`,
`none` when there is none. -/
def removeById : List Person → String → Option (List Person)
  | [], _ => none
  | q :: rest, id =>
    if q.id = id then some rest
    else (removeById rest id).map (q :: ·)

/-- Embeds `delete` (lines 189-193): resolve the index (raising
`NotFoundException` for an absent `id`), splice the record out, and complete
with no value. -/
def deletePerson (s : List Person) (id : String) :
    Except ServiceError Unit × List Person :=
  match removeById s id with
  | some s' => (Except.ok (), s')
  | none => (Except.error (ServiceError.notFound id), s)

/-- One mutating request against the service: a `create` call (with the
clock value `t` its `_createId` reads), an `update` call, or a `delete`
call. -/
inductive Op
  | opCreate (p : CreatePersonDto) (t : Nat)
  | opUpdate (id : String) (p : UpdatePersonDto)
  | opDelete (id : String)
deriving DecidableEq

/-- The list held in `_people` after serving one request, whatever the
outcome of the request was. -/
def step (s : List Person) : Op → List Person
  | Op.opCreate p t => (create s p t).2
  | Op.opUpdate id p => (update s id p).2
  | Op.opDelete id => (deletePerson s id).2

/-- The list held in `_people` after serving a sequence of requests. -/
def runOps (s : List Person) (ops : List Op) : List Person :=
  ops.foldl step s

/-- The case-insensitive name pair of a record, the key of the uniqueness
invariant. -/
def lowPair (q : Person) : String × String :=
  (sToLower q.lastname, sToLower q.firstname)

/-- The uniqueness invariant: two records agreeing on the case-insensitive
name pair carry the same `id` — equivalently, no two distinct ids share a
pair. -/
abbrev PairInv (s : List Person) : Prop :=
  ∀ a ∈ s, ∀ b ∈ s, lowPair a = lowPair b → a.id = b.id

/-- Every stored `id` is unchanged by lowercasing. This holds for every id
the service itself assigns (decimal clock strings) and is assumed of the
seed ids; it is what makes the case-insensitive id comparison inside
`update` agree with the strict comparison inside
`_findPeopleIndexOfList`. -/
abbrev LowFix (s : List Person) : Prop :=
  ∀ a ∈ s, sToLower a.id = a.id

/-- The store invariant carried through mutation sequences. -/
abbrev StoreInv (s : List Person) : Prop :=
  PairInv s ∧ LowFix s

/-- Id uniqueness: the ids of the records, in store order, are pairwise
distinct. -/
abbrev IdUnique (s : List Person) : Prop :=
  (s.map Person.id).Nodup

/-- Freshness of the clock values consumed by the creates of a request
sequence: before each `create` runs, the decimal rendering of its clock
value differs from every id then in the store. The code never checks this;
it is the hypothesis under which `_createId` yields fresh ids. -/
def freshOps : List Person → List Op → Bool
  | _, [] => true
  | s, op :: rest =>
    (match op with
     | Op.opCreate _ t => !((s.map Person.id).contains (Nat.repr t))
     | _ => true) && freshOps (step s op) rest

/-- The `birthDate` string every created record receives. -/
def defaultBD : String := jsNumToString (parseDate "06/05/1985")

/-- A `birthDate` value in parsed form: either a number (seed records) or
the fixed default string a created record receives — never raw date
text other than that constant. -/
def goodBD : JsVal → Bool
  | JsVal.num _ => true
  | JsVal.nan => false
  | JsVal.str s => s == defaultBD

/-- Every stored record has a parsed `birthDate`. -/
abbrev BDInv (s : List Person) : Prop :=
  ∀ q ∈ s, goodBD q.birthDate = true

/-- No update in the sequence supplies a `birthDate` field. -/
def noBDUpdate (ops : List Op) : Bool :=
  ops.all fun op =>
    match op with
    | Op.opUpdate _ p => p.birthDate.isNone
    | _ => true

/-- The identifier `x` matches no stored record. -/
abbrev Absent (s : List Person) (x : String) : Prop :=
  ∀ q ∈ s, q.id ≠ x

/-- The part of `update` that runs before the existence check succeeds
without raising: the conflict scan completes cleanly — it neither dies with
a `TypeError` (a missing payload name got lowercased) nor finds a
conflicting record. -/
def updatePrecheckOk (s : List Person) (x : String) (p : UpdatePersonDto) : Bool :=
  match conflictScan p x s with
  | ScanOutcome.clean => true
  | _ => false

/-- Concrete record used to exercise the theorems: the John Doe of the
specification scenarios, with a parsed `birthDate`. -/
def johnRec : Person :=
  { id := "1", firstname := "John", lastname := "Doe",
    birthDate := JsVal.num 486777600000, photo := "p", extra := "Nantes" }

/-- Concrete creation payload: a fresh name pair. -/
def janeDto : CreatePersonDto :=
  { firstname := "Jane", lastname := "Roe",
    birthDate := none, photo := none, extra := "" }

/-- Concrete creation payload matching John Doe up to letter case. -/
def johnCaseDto : CreatePersonDto :=
  { firstname := "john", lastname := "DOE",
    birthDate := none, photo := none, extra := "" }

/-- Concrete creation payload for John Doe with original casing. -/
def johnDto : CreatePersonDto :=
  { firstname := "John", lastname := "Doe",
    birthDate := none, photo := none, extra := "" }

/-- Concrete creation payload that supplies its own birth date and photo. -/
def selfBDDto : CreatePersonDto :=
  { firstname := "Jane", lastname := "Roe",
    birthDate := some "31/12/1999", photo := some "custom", extra := "y" }

/-- Concrete update payload carrying the John Doe name pair. -/
def updJohnDto : UpdatePersonDto :=
  { firstname := some "John", lastname := some "Doe",
    birthDate := none, photo := none, extra := none }

/-- Concrete update payload carrying the Jane Roe name pair. -/
def updJaneDto : UpdatePersonDto :=
  { firstname := some "Jannet", lastname := some "Roe",
    birthDate := none, photo := none, extra := some "Brest" }

/-- Concrete update payload supplying only a lastname that matches no
stored record. -/
def lastOnlyUpd : UpdatePersonDto :=
  { firstname := none, lastname := some "Zzz",
    birthDate := none, photo := none, extra := some "B" }

/-- Concrete update payload that omits both name fields. -/
def extraOnlyUpd : UpdatePersonDto :=
  { firstname := none, lastname := none,
    birthDate := none, photo := none, extra := some "X" }

/-- Concrete update payload that supplies a raw `birthDate` text. -/
def bdTextUpd : UpdatePersonDto :=
  { firstname := some "John", lastname := some "Doe",
    birthDate := some "01/01/2000", photo := none, extra := none }

/-- Concrete seed entry, as the missing `PEOPLE` data would provide it. -/
def rawJohn : RawPerson :=
  { id := "1", firstname := "John", lastname := "Doe",
    birthDate := "05/06/1985", photo := "p", extra := "Nantes" }

/-- Concrete record for the singleton-store random draw. -/
def aliceRec : Person :=
  { id := "7", firstname := "Alice", lastname := "Moor",
    birthDate := JsVal.num 0, photo := "q", extra := "" }

/-- ASCII decimal digit, by code point. -/
abbrev IsDigitC (c : Char) : Prop := 48 ≤ c.toNat ∧ c.toNat ≤ 57

lemma charToLower_of_not_upper {c : Char} (h : ¬(65 ≤ c.toNat ∧ c.toNat ≤ 90)) :
    charToLower c = c := by
  simp [charToLower, h]

lemma charToLower_digit {c : Char} (h : IsDigitC c) : charToLower c = c :=
  charToLower_of_not_upper (by omega)

lemma digitChar_digit {m : Nat} (h : m < 10) : IsDigitC (Nat.digitChar m) := by
  interval_cases m <;> decide

lemma toDigitsCore_digits :
    ∀ (f n : Nat) (ds : List Char), (∀ c ∈ ds, IsDigitC c) →
      ∀ c ∈ Nat.toDigitsCore 10 f n ds, IsDigitC c := by
  intro f
  induction f with
  | zero =>
    intro n ds h c hc
    simpa [Nat.toDigitsCore] using h c (by simpa [Nat.toDigitsCore] using hc)
  | succ f ih =>
    intro n ds h c hc
    simp only [Nat.toDigitsCore] at hc
    have hd : ∀ x ∈ Nat.digitChar (n % 10) :: ds, IsDigitC x := by
      intro x hx
      rcases List.mem_cons.mp hx with hx | hx
      · subst hx; exact digitChar_digit (Nat.mod_lt _ (by decide))
      · exact h x hx
    by_cases h10 : n / 10 = 0
    · rw [if_pos h10] at hc
      exact hd c hc
    · rw [if_neg h10] at hc
      exact ih _ _ hd c hc

lemma repr_digits (t : Nat) : ∀ c ∈ (Nat.repr t).data, IsDigitC c := by
  intro c hc
  have hc' : c ∈ Nat.toDigitsCore 10 (t + 1) t [] := by
    simpa [Nat.repr, Nat.toDigits, List.asString] using hc
  exact toDigitsCore_digits _ _ [] (by simp) c hc'

lemma map_charToLower_digits :
    ∀ l : List Char, (∀ c ∈ l, IsDigitC c) → l.map charToLower = l := by
  intro l
  induction l with
  | nil => intro _; rfl
  | cons c cs ih =>
    intro h
    have hc := charToLower_digit (h c (List.mem_cons_self _ _))
    have hcs := ih fun x hx => h x (List.mem_cons_of_mem _ hx)
    simp [hc, hcs]

lemma sToLower_digits {s : String} (h : ∀ c ∈ s.data, IsDigitC c) :
    sToLower s = s := by
  cases s with
  | mk data => exact congrArg String.mk (map_charToLower_digits data h)

lemma sToLower_repr (t : Nat) : sToLower (Nat.repr t) = Nat.repr t :=
  sToLower_digits (repr_digits t)

lemma replaceById_none_absent {s : List Person} {id : String}
    {p : UpdatePersonDto} (h : ∀ q ∈ s, q.id ≠ id) :
    replaceById s id p = none := by
  induction s with
  | nil => rfl
  | cons q rest ih =>
    have hq : ¬(q.id = id) := h q (List.mem_cons_self _ _)
    simp [replaceById, hq, ih fun a ha => h a (List.mem_cons_of_mem _ ha)]

lemma removeById_none_absent {s : List Person} {id : String}
    (h : ∀ q ∈ s, q.id ≠ id) : removeById s id = none := by
  induction s with
  | nil => rfl
  | cons q rest ih =>
    have hq : ¬(q.id = id) := h q (List.mem_cons_self _ _)
    simp [removeById, hq, ih fun a ha => h a (List.mem_cons_of_mem _ ha)]

lemma removeById_sublist {s s' : List Person} {id : String}
    (h : removeById s id = some s') : s'.Sublist s := by
  induction s generalizing s' with
  | nil => simp [removeById] at h
  | cons q rest ih =>
    by_cases hq : q.id = id
    · simp only [removeById, if_pos hq, Option.some.injEq] at h
      subst h
      exact List.sublist_cons_self _ _
    · simp only [removeById, if_neg hq] at h
      cases hrec : removeById rest id with
      | none => rw [hrec] at h; simp at h
      | some rr =>
        rw [hrec] at h
        simp at h
        subst h
        exact List.Sublist.cons₂ _ (ih hrec)

lemma mergePerson_id (q : Person) (p : UpdatePersonDto) :
    (mergePerson q p).id = q.id := rfl

lemma replaceById_some {id : String} {p : UpdatePersonDto} :
    ∀ {s s' : List Person} {m : Person}, replaceById s id p = some (m, s') →
      (∃ q, q ∈ s ∧ q.id = id ∧ m = mergePerson q p) ∧
        (∀ a ∈ s', a ∈ s ∨ a = m) ∧ s'.map Person.id = s.map Person.id := by
  intro s
  induction s with
  | nil => intro s' m h; simp [replaceById] at h
  | cons q rest ih =>
    intro s' m h
    by_cases hq : q.id = id
    · simp only [replaceById, if_pos hq, Option.some.injEq, Prod.mk.injEq] at h
      obtain ⟨hm, hs'⟩ := h
      subst hm
      subst hs'
      refine ⟨⟨q, List.mem_cons_self _ _, hq, rfl⟩, ?_, ?_⟩
      · intro a ha
        rcases List.mem_cons.mp ha with ha | ha
        · right; exact ha
        · left; exact List.mem_cons_of_mem _ ha
      · simp [mergePerson_id]
    · simp only [replaceById, if_neg hq] at h
      cases hrec : replaceById rest id p with
      | none => rw [hrec] at h; simp at h
      | some pr =>
        obtain ⟨mm, rr⟩ := pr
        rw [hrec] at h
        simp only [Option.some.injEq, Prod.mk.injEq] at h
        obtain ⟨hm, hs'⟩ := h
        subst hm
        subst hs'
        obtain ⟨⟨q0, hq0, hq0id, hq0m⟩, hmem, hmap⟩ := ih hrec
        refine ⟨⟨q0, List.mem_cons_of_mem _ hq0, hq0id, hq0m⟩, ?_, ?_⟩
        · intro a ha
          rcases List.mem_cons.mp ha with ha | ha
          · subst ha; left; exact List.mem_cons_self _ _
          · rcases hmem a ha with h1 | h1
            · left; exact List.mem_cons_of_mem _ h1
            · right; exact h1
        · simp [hmap]

lemma create_scan_none {s : List Person} {p : CreatePersonDto}
    (hscan : s.find? (fun q =>
      (sToLower q.lastname == sToLower p.lastname) &&
      (sToLower q.firstname == sToLower p.firstname)) = none)
    {b : Person} (hb : b ∈ s) :
    ¬(sToLower b.lastname = sToLower p.lastname ∧
      sToLower b.firstname = sToLower p.firstname) := by
  have h := List.find?_eq_none.mp hscan b hb
  simpa [Bool.and_eq_true] using h

lemma conflictScan_clean_all {p : UpdatePersonDto} {id : String} :
    ∀ {s : List Person}, conflictScan p id s = ScanOutcome.clean →
      ∀ q ∈ s, conflictPred p id q = PredOutcome.miss := by
  intro s
  induction s with
  | nil => intro _ q hq; simp at hq
  | cons q0 rest ih =>
    intro h q hq
    rw [conflictScan] at h
    cases hc : conflictPred p id q0 with
    | crash => rw [hc] at h; simp at h
    | hit pl pf => rw [hc] at h; simp at h
    | miss =>
      rw [hc] at h
      rcases List.mem_cons.mp hq with hq | hq
      · subst hq; exact hc
      · exact ih h q hq

lemma conflictPred_miss_lastname_some {p : UpdatePersonDto} {id : String}
    {q : Person} (h : conflictPred p id q = PredOutcome.miss) :
    ∃ pl, p.lastname = some pl := by
  cases hl : p.lastname with
  | none => simp [conflictPred, hl] at h
  | some pl => exact ⟨pl, rfl⟩

lemma conflictPred_miss_of_lastname_match {p : UpdatePersonDto}
    {id : String} {q : Person} {pl : String} (hl : p.lastname = some pl)
    (h : conflictPred p id q = PredOutcome.miss)
    (hmatch : sToLower q.lastname = sToLower pl) :
    ∃ pf, p.firstname = some pf ∧
      (sToLower q.firstname ≠ sToLower pf ∨ sToLower q.id = sToLower id) := by
  cases hf : p.firstname with
  | none =>
    exfalso
    simp [conflictPred, hl, hf, hmatch] at h
  | some pf =>
    refine ⟨pf, rfl, ?_⟩
    by_cases hfm : sToLower q.firstname = sToLower pf
    · by_cases hid : sToLower q.id = sToLower id
      · exact Or.inr hid
      · exfalso
        simp [conflictPred, hl, hf, hmatch, hfm, hid] at h
    · exact Or.inl hfm

lemma conflictPred_miss_no_firstname {p : UpdatePersonDto} {id : String}
    {q : Person} {pl : String} (hl : p.lastname = some pl)
    (hf : p.firstname = none)
    (h : conflictPred p id q = PredOutcome.miss) :
    sToLower q.lastname ≠ sToLower pl := by
  intro hmatch
  simp [conflictPred, hl, hf, hmatch] at h

lemma lowPair_addedPerson (p : CreatePersonDto) (t : Nat) :
    lowPair (addedPerson p t) = (sToLower p.lastname, sToLower p.firstname) := rfl

lemma storeInv_create {s : List Person} {p : CreatePersonDto} {t : Nat}
    (h : StoreInv s) : StoreInv (create s p t).2 := by
  cases hscan : s.find? (fun q =>
      (sToLower q.lastname == sToLower p.lastname) &&
      (sToLower q.firstname == sToLower p.firstname)) with
  | some q =>
    have h2 : (create s p t).2 = s := by simp [create, hscan]
    rw [h2]; exact h
  | none =>
    have h2 : (create s p t).2 = s ++ [addedPerson p t] := by simp [create, hscan]
    rw [h2]
    constructor
    · intro a ha b hb hpair
      rcases List.mem_append.mp ha with haS | haN
      · rcases List.mem_append.mp hb with hbS | hbN
        · exact h.1 a haS b hbS hpair
        · have hbN : b = addedPerson p t := List.mem_singleton.mp hbN
          subst hbN
          rw [lowPair_addedPerson] at hpair
          have := create_scan_none hscan haS
          exact absurd (Prod.mk.injEq .. ▸ hpair) (by simpa [lowPair] using this)
      · have haN : a = addedPerson p t := List.mem_singleton.mp haN
        subst haN
        rcases List.mem_append.mp hb with hbS | hbN
        · rw [lowPair_addedPerson] at hpair
          have := create_scan_none hscan hbS
          exact absurd (Prod.mk.injEq .. ▸ hpair.symm) (by simpa [lowPair] using this)
        · have hbN : b = addedPerson p t := List.mem_singleton.mp hbN
          rw [hbN]
    · intro a ha
      rcases List.mem_append.mp ha with haS | haN
      · exact h.2 a haS
      · have haN : a = addedPerson p t := List.mem_singleton.mp haN
        subst haN
        exact sToLower_repr t

lemma storeInv_update {s : List Person} {id : String} {p : UpdatePersonDto}
    (h : StoreInv s) : StoreInv (update s id p).2 := by
  cases hscan : conflictScan p id s with
  | crash =>
    have h2 : (update s id p).2 = s := by simp [update, hscan]
    rw [h2]; exact h
  | found pl pf =>
    have h2 : (update s id p).2 = s := by simp [update, hscan]
    rw [h2]; exact h
  | clean =>
    cases hrep : replaceById s id p with
    | none =>
      have h2 : (update s id p).2 = s := by simp [update, hscan, hrep]
      rw [h2]; exact h
    | some pr =>
      obtain ⟨m, s'⟩ := pr
      have h2 : (update s id p).2 = s' := by simp [update, hscan, hrep]
      rw [h2]
      obtain ⟨⟨q, hqmem, hqid, hm⟩, hmem, _⟩ := replaceById_some hrep
      have hall := conflictScan_clean_all hscan
      obtain ⟨pl, hpl⟩ := conflictPred_miss_lastname_some (hall q hqmem)
      have hidlow : sToLower id = id := by
        have := h.2 q hqmem
        rwa [hqid] at this
      have hmid : m.id = id := by rw [hm, mergePerson_id, hqid]
      have hml : m.lastname = pl := by simp [hm, mergePerson, hpl]
      have hside : ∀ a ∈ s, lowPair a = lowPair m → a.id = m.id := by
        intro a ha hpair
        have hal : sToLower a.lastname = sToLower pl := by
          have := congrArg Prod.fst hpair
          simpa [lowPair, hml] using this
        cases hpf : p.firstname with
        | none =>
          exact absurd hal (conflictPred_miss_no_firstname hpl hpf (hall a ha))
        | some pf =>
          have hmf : m.firstname = pf := by simp [hm, mergePerson, hpf]
          have haf : sToLower a.firstname = sToLower pf := by
            have := congrArg Prod.snd hpair
            simpa [lowPair, hmf] using this
          obtain ⟨pf', hpf', hdisj⟩ :=
            conflictPred_miss_of_lastname_match hpl (hall a ha) hal
          rw [hpf] at hpf'
          injection hpf' with e
          subst e
          rcases hdisj with hne | hid
          · exact absurd haf hne
          · rw [hidlow] at hid
            rw [hmid, ← hid]
            exact (h.2 a ha).symm
      constructor
      · intro a ha b hb hpair
        rcases hmem a ha with haS | haM
        · rcases hmem b hb with hbS | hbM
          · exact h.1 a haS b hbS hpair
          · subst hbM; exact hside a haS hpair
        · subst haM
          rcases hmem b hb with hbS | hbM
          · exact (hside b hbS hpair.symm).symm
          · rw [hbM]
      · intro a ha
        rcases hmem a ha with haS | haM
        · exact h.2 a haS
        · subst haM
          rw [hmid, hidlow]

lemma storeInv_delete {s : List Person} {id : String}
    (h : StoreInv s) : StoreInv (deletePerson s id).2 := by
  cases hrem : removeById s id with
  | none =>
    have h2 : (deletePerson s id).2 = s := by simp [deletePerson, hrem]
    rw [h2]; exact h
  | some s' =>
    have h2 : (deletePerson s id).2 = s' := by simp [deletePerson, hrem]
    rw [h2]
    have hsub := (removeById_sublist hrem).subset
    exact ⟨fun a ha b hb hpair => h.1 a (hsub ha) b (hsub hb) hpair,
           fun a ha => h.2 a (hsub ha)⟩

lemma storeInv_step {s : List Person} (op : Op) (h : StoreInv s) :
    StoreInv (step s op) := by
  cases op with
  | opCreate p t => exact storeInv_create h
  | opUpdate id p => exact storeInv_update h
  | opDelete id => exact storeInv_delete h

lemma storeInv_runOps {s : List Person} {ops : List Op} (h : StoreInv s) :
    StoreInv (runOps s ops) := by
  induction ops generalizing s with
  | nil => exact h
  | cons op rest ih => exact ih (storeInv_step op h)

lemma idUnique_create {s : List Person} {p : CreatePersonDto} {t : Nat}
    (h : IdUnique s) (hf : Nat.repr t ∉ s.map Person.id) :
    IdUnique (create s p t).2 := by
  cases hscan : s.find? (fun q =>
      (sToLower q.lastname == sToLower p.lastname) &&
      (sToLower q.firstname == sToLower p.firstname)) with
  | some q =>
    have h2 : (create s p t).2 = s := by simp [create, hscan]
    rw [h2]; exact h
  | none =>
    have h2 : (create s p t).2 = s ++ [addedPerson p t] := by simp [create, hscan]
    unfold IdUnique at h ⊢
    rw [h2, List.map_append]
    simp only [List.map_cons, List.map_nil]
    have : (addedPerson p t).id = Nat.repr t := rfl
    rw [this]
    simp [List.nodup_append, h, hf]

lemma map_id_update (s : List Person) (id : String) (p : UpdatePersonDto) :
    ((update s id p).2).map Person.id = s.map Person.id := by
  cases hscan : conflictScan p id s with
  | crash => simp [update, hscan]
  | found pl pf => simp [update, hscan]
  | clean =>
    cases hrep : replaceById s id p with
    | none => simp [update, hscan, hrep]
    | some pr =>
      obtain ⟨m, s'⟩ := pr
      have h2 : (update s id p).2 = s' := by simp [update, hscan, hrep]
      rw [h2]
      exact (replaceById_some hrep).2.2

lemma idUnique_update {s : List Person} {id : String} {p : UpdatePersonDto}
    (h : IdUnique s) : IdUnique (update s id p).2 := by
  unfold IdUnique
  rw [map_id_update]
  exact h

lemma idUnique_delete {s : List Person} {id : String}
    (h : IdUnique s) : IdUnique (deletePerson s id).2 := by
  cases hrem : removeById s id with
  | none =>
    have h2 : (deletePerson s id).2 = s := by simp [deletePerson, hrem]
    rw [h2]; exact h
  | some s' =>
    have h2 : (deletePerson s id).2 = s' := by simp [deletePerson, hrem]
    rw [h2]
    exact ((removeById_sublist hrem).map Person.id).nodup h

lemma bd_create {s : List Person} {p : CreatePersonDto} {t : Nat}
    (h : BDInv s) : BDInv (create s p t).2 := by
  cases hscan : s.find? (fun q =>
      (sToLower q.lastname == sToLower p.lastname) &&
      (sToLower q.firstname == sToLower p.firstname)) with
  | some q =>
    have h2 : (create s p t).2 = s := by simp [create, hscan]
    rw [h2]; exact h
  | none =>
    have h2 : (create s p t).2 = s ++ [addedPerson p t] := by simp [create, hscan]
    rw [h2]
    intro a ha
    rcases List.mem_append.mp ha with haS | haN
    · exact h a haS
    · have haN : a = addedPerson p t := List.mem_singleton.mp haN
      subst haN
      simp [addedPerson, goodBD, defaultBD]

lemma bd_update {s : List Person} {id : String} {p : UpdatePersonDto}
    (h : BDInv s) (hbd : p.birthDate = none) : BDInv (update s id p).2 := by
  cases hscan : conflictScan p id s with
  | crash =>
    have h2 : (update s id p).2 = s := by simp [update, hscan]
    rw [h2]; exact h
  | found pl pf =>
    have h2 : (update s id p).2 = s := by simp [update, hscan]
    rw [h2]; exact h
  | clean =>
    cases hrep : replaceById s id p with
    | none =>
      have h2 : (update s id p).2 = s := by simp [update, hscan, hrep]
      rw [h2]; exact h
    | some pr =>
      obtain ⟨m, s'⟩ := pr
      have h2 : (update s id p).2 = s' := by simp [update, hscan, hrep]
      rw [h2]
      obtain ⟨⟨q, hqmem, _, hm⟩, hmem, _⟩ := replaceById_some hrep
      intro a ha
      rcases hmem a ha with haS | haM
      · exact h a haS
      · subst haM
        have : (mergePerson q p).birthDate = q.birthDate := by
          simp [mergePerson, hbd]
        rw [hm, this]
        exact h q hqmem

lemma bd_delete {s : List Person} {id : String}
    (h : BDInv s) : BDInv (deletePerson s id).2 := by
  cases hrem : removeById s id with
  | none =>
    have h2 : (deletePerson s id).2 = s := by simp [deletePerson, hrem]
    rw [h2]; exact h
  | some s' =>
    have h2 : (deletePerson s id).2 = s' := by simp [deletePerson, hrem]
    rw [h2]
    exact fun a ha => h a ((removeById_sublist hrem).subset ha)

lemma replaceById_mem {id : String} {p : UpdatePersonDto} :
    ∀ {s s' : List Person} {m : Person},
      replaceById s id p = some (m, s') → m ∈ s' := by
  intro s
  induction s with
  | nil => intro s' m h; simp [replaceById] at h
  | cons q rest ih =>
    intro s' m h
    by_cases hq : q.id = id
    · simp only [replaceById, if_pos hq, Option.some.injEq, Prod.mk.injEq] at h
      obtain ⟨hm, hs'⟩ := h
      subst hm
      subst hs'
      exact List.mem_cons_self _ _
    · simp only [replaceById, if_neg hq] at h
      cases hrec : replaceById rest id p with
      | none => rw [hrec] at h; simp at h
      | some pr =>
        obtain ⟨mm, rr⟩ := pr
        rw [hrec] at h
        simp only [Option.some.injEq, Prod.mk.injEq] at h
        obtain ⟨hm, hs'⟩ := h
        subst hm
        subst hs'
        exact List.mem_cons_of_mem _ (ih hrec)

lemma findOne_ok_replace {x : String} {p : UpdatePersonDto} {q : Person} :
    ∀ {s : List Person}, findOne s x = Except.ok q →
      ∃ s', replaceById s x p = some (mergePerson q p, s') := by
  intro s
  induction s with
  | nil => intro h; simp [findOne] at h
  | cons a rest ih =>
    intro h
    by_cases ha : a.id = x
    · have hfind : (a :: rest).find? (fun r => r.id == x) = some a :=
        List.find?_cons_of_pos _ (by simpa using ha)
      rw [findOne, hfind] at h
      simp only [Except.ok.injEq] at h
      subst h
      exact ⟨mergePerson a p :: rest, by simp [replaceById, ha]⟩
    · have hfind : (a :: rest).find? (fun r => r.id == x) =
          rest.find? (fun r => r.id == x) :=
        List.find?_cons_of_neg _ (by simpa using ha)
      rw [findOne, hfind] at h
      obtain ⟨s', hs'⟩ := ih h
      exact ⟨a :: s', by simp [replaceById, ha, hs']⟩

lemma idUnique_runOps :
    ∀ (ops : List Op) (s : List Person), IdUnique s → freshOps s ops = true →
      IdUnique (runOps s ops) := by
  intro ops
  induction ops with
  | nil => intro s h _; exact h
  | cons op rest ih =>
    intro s h hf
    simp only [freshOps, Bool.and_eq_true] at hf
    obtain ⟨hf1, hf2⟩ := hf
    have hstep : IdUnique (step s op) := by
      cases op with
      | opCreate p t =>
        have hnotin : Nat.repr t ∉ s.map Person.id := by simpa using hf1
        exact idUnique_create h hnotin
      | opUpdate id p => exact idUnique_update h
      | opDelete id => exact idUnique_delete h
    exact ih _ hstep hf2

lemma bd_runOps :
    ∀ (ops : List Op) (s : List Person), BDInv s → noBDUpdate ops = true →
      BDInv (runOps s ops) := by
  intro ops
  induction ops with
  | nil => intro s h _; exact h
  | cons op rest ih =>
    intro s h hno
    simp only [noBDUpdate, List.all_cons, Bool.and_eq_true] at hno
    obtain ⟨h1, h2⟩ := hno
    have hstep : BDInv (step s op) := by
      cases op with
      | opCreate p t => exact bd_create h
      | opUpdate id p =>
        have : p.birthDate = none := by simpa using h1
        exact bd_update h this
      | opDelete id => exact bd_delete h
    exact ih _ hstep h2

lemma bd_init {seed : List RawPerson}
    (hp : ∀ r ∈ seed, (parseDate r.birthDate).isSome = true) :
    BDInv (initPeople seed) := by
  intro q hq
  obtain ⟨r, hr, rfl⟩ := List.mem_map.mp hq
  have := hp r hr
  cases hpd : parseDate r.birthDate with
  | none => rw [hpd] at this; simp at this
  | some n => simp [goodBD, hpd]

/-- C1: whatever sequence of `create`, `update` (and `delete`) requests runs
against a store satisfying the invariants — pairwise-unique case-insensitive
name pairs and lowercase-stable ids, as the seeded store does — the record
set never holds two distinct ids with the same `(lastname, firstname)` pair
under case-insensitive comparison: `create` rejects a payload whose pair
matches an existing record and `update` rejects a payload whose pair matches
a record other than the target. -/
theorem c1_pair_uniqueness (s : List Person) (ops : List Op)
    (h : StoreInv s) : PairInv (runOps s ops) :=
  (storeInv_runOps h).1

theorem c1_pair_uniqueness_witness :
    StoreInv [johnRec] ∧
      PairInv (runOps [johnRec]
        [Op.opCreate janeDto 100, Op.opUpdate "1" updJaneDto]) :=
  ⟨by decide, c1_pair_uniqueness [johnRec]
    [Op.opCreate janeDto 100, Op.opUpdate "1" updJaneDto] (by decide)⟩

/-- C2: evaluation of the code at the failing input. On a store holding
exactly one record, a random draw of `0.5` (a value `Math.random()` can
produce) makes `findRandom` compute `Math.round(0.5 * 1) = 1`, an index one
past the single valid position `0`, so the operation returns the `undefined`
marker instead of the record — contradicting the claim that a singleton
store always yields its record and that the computed index is always a
valid position. -/
theorem c2_singleton_random_misses :
    findRandom [aliceRec] (1/2) = none := by
  norm_num [findRandom, jsRound, jsIndex]

/-- C3 counterexample: on the input `"1985/06/05"` the parser does not fail
at all — the reassembled text `"05/06/1985"` is read as month/day/year, so
`_parseDate` returns the timestamp of 6 May 1985 rather than any
`InvalidDate` error. -/
theorem c3_counterexample :
    parseDate "1985/06/05" = some 484185600000 ∧
      parseDate "1985/06/05" ≠ none := by decide

/-- C3 (amended): `_parseDate` has no failure path. On `"1985/06/05"` it
returns the timestamp of 6 May 1985 (the reassembled text parses as
month/day/year); on `"31/13/1985"` the reassembled `"1985/13/31"` is an
invalid calendar date and the result is `NaN`; on text with fewer than three
slash components, such as `"abc"`, the missing segments concatenate as
`"undefined"` and the result is `NaN`. It never raises an `InvalidDate`
error. -/
theorem c3_parse_never_fails :
    parseDate "1985/06/05" = some 484185600000 ∧
      parseDate "31/13/1985" = none ∧
      parseDate "abc" = none := by decide

/-- C4: parsing the well-formed text `"05/06/1985"` yields the epoch
milliseconds of 5 June 1985 at 00:00 UTC — day-first semantics — and not
the timestamp of 6 May 1985. -/
theorem c4_day_first :
    parseDate "05/06/1985" = some (civilMillis 1985 6 5) ∧
      civilMillis 1985 6 5 = 486777600000 ∧
      parseDate "05/06/1985" ≠ some (civilMillis 1985 5 6) := by decide

/-- C5 counterexample: with John Doe (id `"1"`) in the store and the id
`"2"` absent, `update("2", John Doe payload)` does not fail with `NotFound`:
the conflict scan runs first, matches the resident John Doe record (whose id
differs from the target), and raises `Conflict`. -/
theorem c5_counterexample :
    Absent [johnRec] "2" ∧
      (update [johnRec] "2" updJohnDto).1 =
        Except.error (ServiceError.conflict "Doe" "John") ∧
      (update [johnRec] "2" updJohnDto).1 ≠
        Except.error (ServiceError.notFound "2") := by decide

/-- C5 (amended): for an identifier absent from the store, `findOne` and
`delete` fail with `NotFound` for that identifier, and `update` fails with
`NotFound` exactly when its conflict scan completes cleanly — when the scan
instead hits a conflicting record or dies lowercasing a missing payload
name, that earlier failure is reported, not `NotFound` — while `create`
never fails with `NotFound` (`findAll` and `findRandom` return optional
values and have no failure path at all). -/
theorem c5_not_found_symmetry (s : List Person) (x : String)
    (p : UpdatePersonDto) (h : Absent s x) :
    findOne s x = Except.error (ServiceError.notFound x) ∧
      (deletePerson s x).1 = Except.error (ServiceError.notFound x) ∧
      (updatePrecheckOk s x p = true →
        (update s x p).1 = Except.error (ServiceError.notFound x)) ∧
      (updatePrecheckOk s x p = false →
        (update s x p).1 ≠ Except.error (ServiceError.notFound x)) ∧
      (∀ (q : CreatePersonDto) (t : Nat) (i : String),
        (create s q t).1 ≠ Except.error (ServiceError.notFound i)) := by
  have hfind : s.find? (fun q => q.id == x) = none :=
    List.find?_eq_none.mpr fun q hq => by simp [h q hq]
  refine ⟨?_, ?_, ?_, ?_, ?_⟩
  · simp [findOne, hfind]
  · simp [deletePerson, removeById_none_absent h]
  · intro hpre
    have hscan : conflictScan p x s = ScanOutcome.clean := by
      revert hpre
      unfold updatePrecheckOk
      cases conflictScan p x s <;> simp
    simp [update, hscan, replaceById_none_absent h]
  · intro hpre
    cases hscan : conflictScan p x s with
    | crash => simp [update, hscan]
    | found pl pf => simp [update, hscan]
    | clean => simp [updatePrecheckOk, hscan] at hpre
  · intro q t i
    cases hscan : s.find? (fun r =>
        (sToLower r.lastname == sToLower q.lastname) &&
        (sToLower r.firstname == sToLower q.firstname)) with
    | some r => simp [create, hscan]
    | none => simp [create, hscan]

theorem c5_not_found_symmetry_witness :
    Absent [johnRec] "9" ∧ updatePrecheckOk [johnRec] "9" updJaneDto = true ∧
      (update [johnRec] "9" updJaneDto).1 =
        Except.error (ServiceError.notFound "9") :=
  ⟨by decide, by decide,
    (c5_not_found_symmetry [johnRec] "9" updJaneDto (by decide)).2.2.1
      (by decide)⟩

/-- C6: a request that fails with `Conflict` leaves the record set exactly
as it was — both in `create` and in `update` the conflict scan completes
and raises before any mutation of the list is issued. -/
theorem c6_conflict_preserves_state (s : List Person) :
    (∀ (p : CreatePersonDto) (t : Nat) (ln fn : String),
      (create s p t).1 = Except.error (ServiceError.conflict ln fn) →
      (create s p t).2 = s) ∧
    (∀ (x : String) (p : UpdatePersonDto) (ln fn : String),
      (update s x p).1 = Except.error (ServiceError.conflict ln fn) →
      (update s x p).2 = s) := by
  constructor
  · intro p t ln fn h
    cases hscan : s.find? (fun q =>
        (sToLower q.lastname == sToLower p.lastname) &&
        (sToLower q.firstname == sToLower p.firstname)) with
    | some q => simp [create, hscan]
    | none => simp [create, hscan] at h
  · intro x p ln fn h
    cases hscan : conflictScan p x s with
    | crash => simp [update, hscan]
    | found pl pf => simp [update, hscan]
    | clean =>
      cases hrep : replaceById s x p with
      | none => simp [update, hscan, hrep]
      | some pr =>
        obtain ⟨m, s'⟩ := pr
        rw [update] at h
        simp [hscan, hrep] at h

theorem c6_conflict_preserves_state_witness :
    (create [johnRec] johnCaseDto 5).1 =
        Except.error (ServiceError.conflict "DOE" "john") ∧
      (create [johnRec] johnCaseDto 5).2 = [johnRec] :=
  ⟨by decide, (c6_conflict_preserves_state [johnRec]).1 johnCaseDto 5
    "DOE" "john" (by decide)⟩

/-- C7 counterexample: record id `"1"` exists, yet an update payload that
omits both name fields does not succeed with a merge — against the
non-empty store the conflict scan evaluates `toLowerCase` on the missing
payload lastname at the first record and the call dies with a
`TypeError`. -/
theorem c7_counterexample :
    johnRec ∈ [johnRec] ∧ johnRec.id = "1" ∧
      (update [johnRec] "1" extraOnlyUpd).1 =
        Except.error ServiceError.typeError := by decide

/-- C7 (amended): `update` merges an arbitrary subset of fields onto the
existing record — each supplied field replaces the stored one and every
omitted field is kept — whenever its conflict scan completes cleanly,
which includes payloads omitting `firstname` or `lastname` when the scan
never lowercases the missing field (for instance a lastname matching no
stored record); but the scan can instead die with a `TypeError` on a
missing name, as in the counterexample, so not every partial payload
against an existing id succeeds. Here `findOne s x = ok q` pins `q` as the
record the update targets. -/
theorem c7_partial_update_merges (s : List Person) (x : String)
    (p : UpdatePersonDto) (q : Person)
    (hpre : updatePrecheckOk s x p = true)
    (hq : findOne s x = Except.ok q) :
    (update s x p).1 = Except.ok (mergePerson q p) ∧
      (mergePerson q p).id = q.id ∧
      (mergePerson q p).firstname = p.firstname.getD q.firstname ∧
      (mergePerson q p).lastname = p.lastname.getD q.lastname ∧
      (mergePerson q p).birthDate = (match p.birthDate with
        | some text => JsVal.str text
        | none => q.birthDate) ∧
      (mergePerson q p).photo = p.photo.getD q.photo ∧
      (mergePerson q p).extra = p.extra.getD q.extra ∧
      mergePerson q p ∈ (update s x p).2 := by
  have hscan : conflictScan p x s = ScanOutcome.clean := by
    revert hpre
    unfold updatePrecheckOk
    cases conflictScan p x s <;> simp
  obtain ⟨s', hrep⟩ := findOne_ok_replace (p := p) hq
  refine ⟨?_, rfl, rfl, rfl, rfl, rfl, rfl, ?_⟩
  · simp [update, hscan, hrep]
  · have h2 : (update s x p).2 = s' := by simp [update, hscan, hrep]
    rw [h2]
    exact replaceById_mem hrep

theorem c7_partial_update_merges_witness :
    updatePrecheckOk [johnRec] "1" lastOnlyUpd = true ∧
      findOne [johnRec] "1" = Except.ok johnRec ∧
      (update [johnRec] "1" lastOnlyUpd).1 =
        Except.ok (mergePerson johnRec lastOnlyUpd) ∧
      (mergePerson johnRec lastOnlyUpd).lastname = "Zzz" ∧
      (mergePerson johnRec lastOnlyUpd).firstname = johnRec.firstname ∧
      (mergePerson johnRec lastOnlyUpd).photo = johnRec.photo :=
  ⟨by decide, by decide,
    (c7_partial_update_merges [johnRec] "1" lastOnlyUpd johnRec
      (by decide) (by decide)).1,
    by decide, rfl, rfl⟩

/-- C8 counterexample: starting from an empty store, two `create` calls in
the same clock millisecond (`t = 100`) insert two distinct records — the
firstnames differ — that both receive the id `"100"`: `_createId` derives
the id from the clock alone and `create` never checks it against existing
ids. -/
theorem c8_counterexample :
    (runOps [] [Op.opCreate johnDto 100, Op.opCreate janeDto 100]).map
        Person.id = ["100", "100"] ∧
      (runOps [] [Op.opCreate johnDto 100, Op.opCreate janeDto 100]).map
        Person.firstname = ["John", "Jane"] := by decide

/-- C8 (amended): id uniqueness holds only under a freshness assumption on
the clock: if the store starts with pairwise distinct ids and, before each
`create` of the sequence runs, the decimal rendering of its clock value
differs from every id then present, then ids remain pairwise distinct after
the whole sequence (updates never change ids and deletes only remove
records). -/
theorem c8_id_unique_fresh (s : List Person) (ops : List Op)
    (h : IdUnique s) (hf : freshOps s ops = true) :
    IdUnique (runOps s ops) :=
  idUnique_runOps ops s h hf

theorem c8_id_unique_fresh_witness :
    IdUnique [johnRec] ∧ freshOps [johnRec] [Op.opCreate janeDto 100] = true ∧
      IdUnique (runOps [johnRec] [Op.opCreate janeDto 100]) :=
  ⟨by decide, by decide,
    c8_id_unique_fresh [johnRec] [Op.opCreate janeDto 100]
      (by decide) (by decide)⟩

/-- C9 counterexample: after an update supplying a `birthDate`, a stored
record holds raw unparsed date text. Starting from the seeded store (one
seed record with a well-formed date, so its `birthDate` is loaded as a
number), the single update merges the text `"01/01/2000"` verbatim into the
record — `update` performs no date parsing. -/
theorem c9_counterexample :
    (runOps (initPeople [rawJohn]) [Op.opUpdate "1" bdTextUpd]).map
      Person.birthDate = [JsVal.str "01/01/2000"] := by decide

/-- C9 (amended): seed records whose date text parses are loaded with a
numeric timestamp, and every record a `create` appends stores the fixed
default timestamp rendered as a decimal string; this parsed form is
preserved by every operation sequence whose updates supply no `birthDate`
field. (An update that does supply one stores raw text, see the
counterexample.) -/
theorem c9_birthdate_parsed :
    (∀ seed : List RawPerson,
      (∀ r ∈ seed, (parseDate r.birthDate).isSome = true) →
        BDInv (initPeople seed)) ∧
    (∀ (s : List Person) (ops : List Op), BDInv s →
      noBDUpdate ops = true → BDInv (runOps s ops)) :=
  ⟨fun _ hp => bd_init hp, fun s ops h hno => bd_runOps ops s h hno⟩

theorem c9_birthdate_parsed_witness :
    (parseDate rawJohn.birthDate).isSome = true ∧
      BDInv (initPeople [rawJohn]) ∧
      noBDUpdate [Op.opCreate janeDto 100] = true ∧
      BDInv (runOps (initPeople [rawJohn]) [Op.opCreate janeDto 100]) :=
  ⟨by decide, c9_birthdate_parsed.1 [rawJohn] (by decide), by decide,
    c9_birthdate_parsed.2 (initPeople [rawJohn]) [Op.opCreate janeDto 100]
      (c9_birthdate_parsed.1 [rawJohn] (by decide)) (by decide)⟩

/-- C10: whenever `create` succeeds — whatever the payload, including one
that supplies its own `birthDate` or `photo` — the stored record carries
the fixed parsed-then-stringified default birth date
(`_parseDate('06/05/1985').toString()`, the decimal string
`"484185600000"`) and the fixed placeholder photo URL, while the supplied
names and pass-through fields are stored as given; the record is appended
to the store. In `_addPerson` (and likewise `_prepareNewPerson` of the
DAO-backed variant) the object literal spreads the payload first and lists
`id`, `birthDate` and `photo` after it, and in JavaScript the later keys
win, so a payload-supplied `birthDate` or `photo` is discarded — which is
why `addedPerson` does not read those two payload fields. The witness
exercises a payload supplying both. -/
theorem c10_create_overwrites (s : List Person) (p : CreatePersonDto)
    (t : Nat) (r : Person) (h : (create s p t).1 = Except.ok r) :
    r.birthDate = JsVal.str defaultBD ∧ defaultBD = "484185600000" ∧
      r.photo = "https://randomuser.me/api/portraits/lego/6.jpg" ∧
      r.firstname = p.firstname ∧ r.lastname = p.lastname ∧
      r.extra = p.extra ∧ (create s p t).2 = s ++ [r] := by
  cases hscan : s.find? (fun q =>
      (sToLower q.lastname == sToLower p.lastname) &&
      (sToLower q.firstname == sToLower p.firstname)) with
  | some q => simp [create, hscan] at h
  | none =>
    have hr : r = addedPerson p t := by
      have := h.symm
      simpa [create, hscan] using this
    subst hr
    exact ⟨rfl, by decide, rfl, rfl, rfl, rfl, by simp [create, hscan]⟩

theorem c10_create_overwrites_witness :
    (create [johnRec] selfBDDto 200).1 =
        Except.ok (addedPerson selfBDDto 200) ∧
      (addedPerson selfBDDto 200).birthDate = JsVal.str defaultBD ∧
      (addedPerson selfBDDto 200).photo =
        "https://randomuser.me/api/portraits/lego/6.jpg" ∧
      selfBDDto.birthDate = some "31/12/1999" ∧
      selfBDDto.photo = some "custom" :=
  ⟨by decide,
    (c10_create_overwrites [johnRec] selfBDDto 200 _ (by decide)).1,
    (c10_create_overwrites [johnRec] selfBDDto 200 _ (by decide)).2.2.1,
    rfl, rfl⟩

end NwtSchool
